import Mathlib

/-!
# Batch user import and the audit log

A shallow embedding of two Go files of the verification server:

* `pkg/controller/user/importbatch.go` : `HandleImportBatch`;
* `pkg/database/audit_entry.go` : `LoadAuditList`, `PurgeAuditEntries`,
  `SaveAuditEntry`.

Go pointers that may be nil are `Option`s, Go `error` values are their message
text, `uint` identifiers are natural numbers, instants and durations are
integer nanosecond counts, and the calls into the storage engine, the identity
provider and the notifier are answered by explicit outcome records.
-/

namespace Verification

/-! ## Data model -/

/-- Modelled from the spec: `database.Realm` is declared outside the two source
files; the code only reads its `ID`. -/
structure Realm where
  ID : Nat
deriving DecidableEq, Repr

/-- Modelled from the spec: `database.User` is declared outside the two source
files; the code reads and writes `ID`, `Email`, `Name` and `Realms`. -/
structure User where
  ID : Nat
  Email : String
  Name : String
  Realms : List Realm
deriving DecidableEq, Repr

/-- Modelled from the spec: `api.BatchUser`, the descriptor of an import
request (email and display name), is declared outside the two source files. -/
structure BatchUser where
  Email : String
  Name : String
deriving DecidableEq, Repr

/-- The struct `AuditEntry` of `audit_entry.go` (the embedded `Errorable` and
the preload pointer `User` carry no data the code below reads). -/
structure AuditEntry where
  ID : Nat
  UserID : Nat
  Action : String
  TargetType : String
  TargetID : Nat
  SourceType : String
  SourceID : Nat
  CreatedAt : Int
deriving DecidableEq, Repr

/-- The rows the storage engine holds: the user table and the audit table. -/
structure Store where
  users : List User
  audits : List AuditEntry
deriving DecidableEq, Repr

/-! ## Library behaviour the handler relies on -/

/-- `http.StatusOK`. -/
def StatusOK : Nat := 200

/-- `http.StatusInternalServerError`. -/
def StatusInternalServerError : Nat := 500

/-- Go's conversion `string(i)` of an integer: the UTF-8 text of the code
point `i`, or of the replacement character when `i` is no valid code point. -/
def goStringOfInt (i : Nat) : String :=
  if Nat.isValidChar i then String.singleton (Char.ofNat i) else "\uFFFD"

/-- The value of a `*multierror.Error` (imported library
`github.com/hashicorp/go-multierror`): `none` is the nil pointer, `some es` an
error whose `Errors` field is `es`. -/
abbrev MultiError := Option (List String)

/-- `multierror.Append(err, e)` for a non-nil plain error `e`. -/
def multierrorAppend (err : MultiError) (e : String) : MultiError :=
  some (err.getD [] ++ [e])

/-- `(*multierror.Error).ErrorOrNil`: nil for a nil receiver and for an empty
error list. -/
def ErrorOrNil (err : MultiError) : Option (List String) :=
  match err with
  | none => none
  | some es => if es.length = 0 then none else some es

/-- `multierror.ListFormatFunc` of the imported library
`github.com/hashicorp/go-multierror`: the text `Error()` returns when no
other formatter is set, as here. -/
def ListFormatFunc (es : List String) : String :=
  match es with
  | [e] => "1 error occurred:\n\t* " ++ e ++ "\n\n"
  | _ =>
    toString es.length ++ " errors occurred:\n\t" ++
      "\n\t".intercalate (es.map fun e => "* " ++ e) ++ "\n\n"

/-! ## Collaborators of the import handler -/

/-- Modelled from the spec: `FindUserByEmail` and `IsNotFound` are declared
outside the two source files. What the lookup returned: a user and a nil
error, an error for which `database.IsNotFound` holds (expected, "must
create"), or any other error. -/
inductive FindResult
  | found (u : User)
  | notFound
  | failed (err : String)
deriving DecidableEq, Repr

/-- The answers of the collaborators to the calls made for one descriptor.
`saveUser` carries, on success, the primary key the user row has after
`database.SaveUser`; `saveAudit` the primary key and creation time the storage
engine gives the audit row; `commit` the error of the commit, if any. -/
structure Outcomes where
  find : FindResult
  created : Bool
  createErr : Option String
  sendReset : Option String
  saveUser : Except String Nat
  saveAudit : Except String (Nat × Int)
  commit : Option String

/-- A request body with, next to each descriptor of `request.Users`, the
answers the collaborators give while that descriptor is processed. -/
abbrev Batch := List (BatchUser × Outcomes)

/-- How a closure run inside a storage transaction ends. -/
inductive TxResult
  | ok (tx : Store)
  | err (e : String)
  | nilDereference

/-- How `Transaction` ends: with the error it returns (nil on commit), or by
letting the closure's run-time fault through. -/
inductive TxStatus
  | returned (err : Option String)
  | nilDereference
deriving DecidableEq, Repr

/-- Modelled from the spec: the transaction primitive of the storage engine
(`gorm`), "aborting all writes performed by `fn` on error". The closure works
on a private copy; the copy replaces the store only when the closure returns
nil and the commit succeeds, otherwise everything is rolled back, also when
the closure faults. -/
def Transaction (db : Store) (commit : Option String) (fc : Store → TxResult) :
    Store × TxStatus :=
  match fc db with
  | .nilDereference => (db, .nilDereference)
  | .err e => (db, .returned (some e))
  | .ok tx =>
    match commit with
    | some e => (db, .returned (some e))
    | none => (tx, .returned none)

/-- Modelled from the spec: writing a user row "persists/updates the User
row". The stored row with the same primary key is replaced where it stands; a
user whose key no stored row has is added as a new row. -/
def upsertUser (rows : List User) (u : User) : List User :=
  match rows with
  | [] => [u]
  | r :: rest => if r.ID = u.ID then u :: rest else r :: upsertUser rest u

/-- Modelled from the spec: `database.SaveUser(tx, user)` is declared outside
the two source files. On success the user carries its primary key and its row
is written inside the transaction: an existing row is updated, a new one
inserted. -/
def SaveUser (tx : Store) (user : User) (answer : Except String Nat) :
    Except String (Store × User) :=
  match answer with
  | .error e => .error e
  | .ok id =>
    let saved := { user with ID := id }
    .ok ({ tx with users := upsertUser tx.users saved }, saved)

/-- `SaveAuditEntry(tx, e)`, that is `tx.Save(e).Error`: on success the row is
written with the key and creation time the storage engine assigns. -/
def SaveAuditEntry (tx : Store) (e : AuditEntry) (answer : Except String (Nat × Int)) :
    Except String Store :=
  match answer with
  | .error err => .error err
  | .ok (id, at_) =>
    .ok { tx with audits := tx.audits ++ [{ e with ID := id, CreatedAt := at_ }] }

/-! ## `HandleImportBatch` -/

/-- Which variable `&batchUser` denotes. Before Go 1.22 a `for ... range`
statement has one variable for the whole loop; from Go 1.22 on (selected by
the module file, which is not among the sources) each iteration has its
own. -/
inductive LoopVarScope
  | perLoop
  | perIteration
deriving DecidableEq, Repr

/-- The address of the loop variable `batchUser` in iteration `i`. -/
def LoopVarScope.addr : LoopVarScope → Nat → Nat
  | .perLoop, _ => 0
  | .perIteration, i => i

/-- The memory cells holding the loop variable. -/
abbrev Cells := Nat → BatchUser

/-- Assignment to the cell at address `p`. -/
def Cells.write (c : Cells) (p : Nat) (v : BatchUser) : Cells :=
  fun q => if q = p then v else c q

/-- The variables of the handler that live across iterations: `newUsers` (a
slice of pointers), `batchErr`, the loop variable's cells and the store. -/
structure LoopState where
  newUsers : List Nat
  batchErr : MultiError
  cells : Cells
  db : Store

/-- One iteration either reaches the next one or faults. -/
inductive Step
  | next (s : LoopState)
  | nilDereference (s : LoopState)

/-- The closure passed to `Transaction` (source lines 86 to 106). -/
def saveUserAndAudit (realm : Realm) (currentUser : Option User) (user : User)
    (o : Outcomes) (tx : Store) : TxResult :=
  match SaveUser tx user o.saveUser with
  | .error e => .err ("failed to save user: " ++ e)
  | .ok (tx1, user1) =>
    match currentUser with
    | none => .nilDereference
    | some cu =>
      let audit : AuditEntry :=
        { ID := 0
          UserID := cu.ID
          Action := "added user"
          TargetType := "users"
          TargetID := user1.ID
          SourceType := "realms"
          SourceID := realm.ID
          CreatedAt := 0 }
      match SaveAuditEntry tx1 audit o.saveAudit with
      | .error e => .err ("failed to save audit: " ++ e)
      | .ok tx2 => .ok tx2

/-- The membership update and audit entry of one descriptor (source lines 84
to 110), run once its user is known and provisioned. -/
def persistStep (realm : Realm) (currentUser : Option User) (user : User)
    (o : Outcomes) (s : LoopState) : Step :=
  match Transaction s.db o.commit (saveUserAndAudit realm currentUser user o) with
  | (db1, .nilDereference) => .nilDereference { s with db := db1 }
  | (db1, .returned (some e)) =>
    .next { s with db := db1, batchErr := multierrorAppend s.batchErr e }
  | (db1, .returned none) => .next { s with db := db1 }

/-- The body of the loop over `request.Users` (source lines 55 to 111) for the
descriptor at position `i`. -/
def importStep (scope : LoopVarScope) (realm : Realm) (currentUser : Option User)
    (i : Nat) (batchUser : BatchUser) (o : Outcomes) (s0 : LoopState) : Step :=
  let p := scope.addr i
  let s : LoopState := { s0 with cells := s0.cells.write p batchUser }
  match o.find with
  | .failed e => .next { s with batchErr := multierrorAppend s.batchErr e }
  | found =>
    let user0 : User :=
      match found with
      | .found u => u
      | _ => { ID := 0, Email := batchUser.Email, Name := batchUser.Name, Realms := [] }
    let user : User := { user0 with Realms := user0.Realms ++ [realm] }
    match o.createErr with
    | some e => .next { s with batchErr := multierrorAppend s.batchErr e }
    | none =>
      if o.created then
        let s1 : LoopState := { s with newUsers := s.newUsers ++ [p] }
        match o.sendReset with
        | some e => .next { s1 with batchErr := multierrorAppend s1.batchErr e }
        | none => persistStep realm currentUser user o s1
      else
        persistStep realm currentUser user o s

/-- The loop over `request.Users`, from position `i` on. -/
def importLoop (scope : LoopVarScope) (realm : Realm) (currentUser : Option User) :
    Nat → Batch → LoopState → Step
  | _, [], s => .next s
  | i, (batchUser, o) :: rest, s =>
    match importStep scope realm currentUser i batchUser o s with
    | .nilDereference s1 => .nilDereference s1
    | .next s1 => importLoop scope realm currentUser (i + 1) rest s1

/-- Modelled from the spec: `api.UserBatchResponse` is declared outside the
two source files; `NewUsers` is a slice of pointers to descriptors. -/
structure UserBatchResponse where
  NewUsers : List Nat
  Error : String
  ErrorCode : String

/-- The response as the client reads it: `RenderJSON` follows the pointers of
`NewUsers` when it writes the body. -/
structure RenderedResponse where
  NewUsers : List BatchUser
  Error : String
  ErrorCode : String
deriving DecidableEq, Repr

/-- What the handler does with the request. -/
inductive Reply
  | missingRealm
  | missingUser
  | badRequest (err : String)
  | json (status : Nat) (body : RenderedResponse)
  | nilDereference
deriving DecidableEq, Repr

/-- Modelled from the spec: `c.h.RenderJSON(w, status, response)` is declared
outside the two source files; it writes the status and the body. -/
def RenderJSON (cells : Cells) (status : Nat) (response : UserBatchResponse) : Reply :=
  .json status
    { NewUsers := response.NewUsers.map cells
      Error := response.Error
      ErrorCode := response.ErrorCode }

/-- Source lines 113 to 127: build and render the response. -/
def respond (s : LoopState) : Reply :=
  let response : UserBatchResponse := { NewUsers := s.newUsers, Error := "", ErrorCode := "" }
  match ErrorOrNil s.batchErr with
  | some es =>
    let response1 : UserBatchResponse :=
      { response with
        Error := ListFormatFunc es
        ErrorCode := goStringOfInt StatusInternalServerError }
    if s.newUsers.length = 0 then
      RenderJSON s.cells StatusInternalServerError response1
    else
      RenderJSON s.cells StatusOK response1
  | none => RenderJSON s.cells StatusOK response

/-- An incoming request: the realm and the acting user of the request
context (either may be nil) and what `BindJSON` makes of the body. -/
structure Request where
  realm : Option Realm
  currentUser : Option User
  body : Except String Batch

/-- The cells before the loop has assigned anything. -/
def noCells : Cells := fun _ => { Email := "", Name := "" }

/-- The handler of `HandleImportBatch`, with the scope of the loop variable
and the store it starts from; the result is the reply and the store it
leaves. The test before `MissingUser` is the source's `realm == nil`. -/
def HandleImportBatch (scope : LoopVarScope) (db : Store) (r : Request) : Reply × Store :=
  match r.realm with
  | none => (.missingRealm, db)
  | some realm =>
    let currentUser := r.currentUser
    if r.realm = none then (.missingUser, db)
    else
      match r.body with
      | .error e => (.badRequest e, db)
      | .ok users =>
        let s0 : LoopState := { newUsers := [], batchErr := none, cells := noCells, db := db }
        match importLoop scope realm currentUser 0 users s0 with
        | .nilDereference s => (.nilDereference, s.db)
        | .next s => (respond s, s.db)

/-! ## `LoadAuditList` -/

/-- A Go map as the list of its key/value pairs, every key at most once. -/
abbrev GoMap (κ : Type) (ν : Type) := List (κ × ν)

/-- The element `m[k]`, with the comma-ok flag as `Option`. -/
def GoMap.get {κ ν : Type} [DecidableEq κ] (m : GoMap κ ν) (k : κ) : Option ν :=
  match m with
  | [] => none
  | (k1, v1) :: rest => if k1 = k then some v1 else GoMap.get rest k

/-- The assignment `m[k] = v`. -/
def GoMap.set {κ ν : Type} [DecidableEq κ] (m : GoMap κ ν) (k : κ) (v : ν) : GoMap κ ν :=
  match m with
  | [] => [(k, v)]
  | (k1, v1) :: rest => if k1 = k then (k, v) :: rest else (k1, v1) :: GoMap.set rest k v

/-- The keys of a map. -/
def GoMap.keys {κ ν : Type} (m : GoMap κ ν) : List κ :=
  m.map Prod.fst

/-- The struct `AuditList`. -/
structure AuditList where
  Entries : List AuditEntry
  PreloadedRealms : GoMap Nat Realm
  PreloadedUsers : GoMap Nat User
deriving DecidableEq, Repr

/-- The two bulk queries of `LoadAuditList`, `id IN (?)` over the realm and the
user table: the rows found, or the error of the query. -/
structure Loaders where
  findRealms : List Nat → Except String (List Realm)
  findUsers : List Nat → Except String (List User)

/-- Loaders over given tables that answer every query with exactly the stored
rows whose id is among the requested ones. -/
def storedLoaders (realms : List Realm) (users : List User) : Loaders where
  findRealms := fun ids => .ok (realms.filter fun r => decide (r.ID ∈ ids))
  findUsers := fun ids => .ok (users.filter fun u => decide (u.ID ∈ ids))

/-- The statements `if _, ok := lookups[k]; !ok ...` and
`lookups[k] = append(lookups[k], id)` (source lines 44 to 47 and 49 to 52). -/
def addLookup (lookups : GoMap String (List Nat)) (k : String) (id : Nat) :
    GoMap String (List Nat) :=
  let lookups1 := if (lookups.get k).isSome then lookups else lookups.set k []
  lookups1.set k ((lookups1.get k).getD [] ++ [id])

/-- The first loop of `LoadAuditList` (source lines 42 to 53). -/
def buildLookups (entries : List AuditEntry) : GoMap String (List Nat) :=
  entries.foldl
    (fun lookups e => addLookup (addLookup lookups e.TargetType e.TargetID) e.SourceType e.SourceID)
    []

/-- The second loop of `LoadAuditList` (source lines 55 to 86) over the pairs
of `lookups` in the order the range statement yields them. -/
def loadLoop (db : Loaders) : List (String × List Nat) → AuditList → Except String AuditList
  | [], l => .ok l
  | (k, v) :: rest, l =>
    if k = "realms" then
      match db.findRealms v with
      | .error err => .error ("failed to load realms: " ++ err)
      | .ok realms =>
        loadLoop db rest
          { l with PreloadedRealms := realms.foldl (fun m r => m.set r.ID r) l.PreloadedRealms }
    else if k = "users" then
      match db.findUsers v with
      | .error err => .error ("failed to load users: " ++ err)
      | .ok users =>
        loadLoop db rest
          { l with PreloadedUsers := users.foldl (fun m u => m.set u.ID u) l.PreloadedUsers }
    else
      .error ("unknown polymorphic association " ++ k)

/-- The function `LoadAuditList`. Go leaves the order in which a range
statement visits a map open; `order` is the order of one run. -/
def LoadAuditList (db : Loaders) (order : GoMap String (List Nat) → List (String × List Nat))
    (entries : List AuditEntry) : Except String AuditList :=
  let l : AuditList := { Entries := entries, PreloadedRealms := [], PreloadedUsers := [] }
  let lookups := buildLookups entries
  loadLoop db (order lookups) l

/-- An order a range statement can take: every pair of the map once. -/
def IsRangeOrder (order : GoMap String (List Nat) → List (String × List Nat)) : Prop :=
  ∀ m, (order m).Perm m

/-! ## `PurgeAuditEntries` -/

/-- Two's complement wrap-around of a 64-bit signed integer. -/
def wrapInt64 (x : Int) : Int :=
  (x + 2 ^ 63) % 2 ^ 64 - 2 ^ 63

/-- The range of `time.Duration`, a 64-bit signed count of nanoseconds. -/
def IsInt64 (x : Int) : Prop :=
  -(2 ^ 63) ≤ x ∧ x < 2 ^ 63

/-- The statement `Where("created_at < ?", createdBefore).Delete(...)` on the
audit table: the store left, `RowsAffected` and `Error`. A failing statement
deletes nothing. -/
def deleteCreatedBefore (db : Store) (createdBefore : Int) (failure : Option String) :
    Store × Nat × Option String :=
  match failure with
  | some err => (db, 0, some err)
  | none =>
    ({ db with audits := db.audits.filter fun e => !decide (e.CreatedAt < createdBefore) },
      (db.audits.filter fun e => decide (e.CreatedAt < createdBefore)).length,
      none)

/-- The function `PurgeAuditEntries`, at the instant `now` read from the
clock and with the storage engine's answer to the delete statement. -/
def PurgeAuditEntries (now : Int) (db : Store) (failure : Option String) (maxAge : Int) :
    Store × Nat × Option String :=
  let maxAge1 := if maxAge > 0 then wrapInt64 (-1 * maxAge) else maxAge
  let createdBefore := now + maxAge1
  deleteCreatedBefore db createdBefore failure

/-! ## What a descriptor's outcomes mean, in the words of the specification -/

/-- The error a descriptor records, if any: a lookup failure other than
not-found, a provisioning failure, a notification failure (a notification is
sent only for a newly created account), or a failure of the transaction
(saving the user, saving the audit entry, committing). -/
def Outcomes.recordedError (o : Outcomes) : Option String :=
  match o.find with
  | .failed e => some e
  | _ =>
    match o.createErr with
    | some e => some e
    | none =>
      match (if o.created then o.sendReset else none) with
      | some e => some e
      | none =>
        match o.saveUser with
        | .error e => some ("failed to save user: " ++ e)
        | .ok _ =>
          match o.saveAudit with
          | .error e => some ("failed to save audit: " ++ e)
          | .ok _ => o.commit

/-- Identity provisioning was reached and reported "newly created". -/
def Outcomes.newlyCreated (o : Outcomes) : Bool :=
  match o.find with
  | .failed _ => false
  | _ => o.createErr.isNone && o.created

/-- The user a descriptor is about, before it is saved: the user found by
email, or a new one built from the descriptor, with the realm appended to the
memberships. -/
def userOf (realm : Realm) (batchUser : BatchUser) (o : Outcomes) : User :=
  match o.find with
  | .found u => { u with Realms := u.Realms ++ [realm] }
  | _ => { ID := 0, Email := batchUser.Email, Name := batchUser.Name, Realms := [realm] }

/-- The user row a descriptor leaves in the store: none when it recorded an
error. -/
def savedUserOf (realm : Realm) (d : BatchUser × Outcomes) : Option User :=
  match d.2.recordedError, d.2.saveUser with
  | none, .ok id => some { userOf realm d.1 d.2 with ID := id }
  | _, _ => none

/-- The audit entry a descriptor leaves in the store: none when it recorded
an error. -/
def auditOf (cu : User) (realm : Realm) (d : BatchUser × Outcomes) : Option AuditEntry :=
  match d.2.recordedError, d.2.saveUser, d.2.saveAudit with
  | none, .ok uid, .ok (id, at_) =>
    some
      { ID := id
        UserID := cu.ID
        Action := "added user"
        TargetType := "users"
        TargetID := uid
        SourceType := "realms"
        SourceID := realm.ID
        CreatedAt := at_ }
  | _, _, _ => none

/-- The state one iteration leaves when an acting user is present. -/
def stepResult (scope : LoopVarScope) (cu : User) (realm : Realm) (i : Nat)
    (d : BatchUser × Outcomes) (s : LoopState) : LoopState where
  newUsers := s.newUsers ++ (if d.2.newlyCreated then [scope.addr i] else [])
  batchErr :=
    match d.2.recordedError with
    | some e => multierrorAppend s.batchErr e
    | none => s.batchErr
  cells := s.cells.write (scope.addr i) d.1
  db :=
    { users :=
        match savedUserOf realm d with
        | some u => upsertUser s.db.users u
        | none => s.db.users
      audits := s.db.audits ++ (auditOf cu realm d).toList }

/-- The state the whole loop leaves when an acting user is present. -/
def loopResult (scope : LoopVarScope) (cu : User) (realm : Realm) :
    Nat → Batch → LoopState → LoopState
  | _, [], s => s
  | i, d :: rest, s => loopResult scope cu realm (i + 1) rest (stepResult scope cu realm i d s)

/-- The pointers the loop appends to `newUsers`, from position `i` on. -/
def newUserPtrs (scope : LoopVarScope) : Nat → Batch → List Nat
  | _, [] => []
  | i, d :: rest =>
    (if d.2.newlyCreated then [scope.addr i] else []) ++ newUserPtrs scope (i + 1) rest

/-- The errors of a batch, in input order. -/
def recordedErrors (batch : Batch) : List String :=
  batch.filterMap fun d => d.2.recordedError

/-- The request that reaches the loop: realm and acting user present, body
decoded. -/
def batchRequest (realm : Realm) (cu : User) (batch : Batch) : Request where
  realm := some realm
  currentUser := some cu
  body := .ok batch

/-! ## Sample data -/

/-- A realm. -/
def sampleRealm : Realm := { ID := 5 }

/-- An acting user. -/
def sampleAdmin : User := { ID := 9, Email := "admin@example.com", Name := "Admin", Realms := [] }

/-- A descriptor. -/
def alice : BatchUser := { Email := "alice@example.com", Name := "Alice" }

/-- Another descriptor. -/
def bob : BatchUser := { Email := "bob@example.com", Name := "Bob" }

/-- Unknown email, identity account newly created, every later step fine. -/
def freshAccount : Outcomes where
  find := .notFound
  created := true
  createErr := none
  sendReset := none
  saveUser := .ok 7
  saveAudit := .ok (1, 100)
  commit := none

/-- Known user whose identity account exists already; every step fine. -/
def existingAccount : Outcomes where
  find := .found { ID := 3, Email := "carol@example.com", Name := "Carol", Realms := [{ ID := 4 }] }
  created := false
  createErr := none
  sendReset := none
  saveUser := .ok 3
  saveAudit := .ok (2, 101)
  commit := none

/-- The lookup by email fails with an error other than not-found. -/
def lookupFails : Outcomes := { freshAccount with find := .failed "storage unavailable" }

/-- The identity account is newly created, the notification then fails. -/
def notificationFails : Outcomes := { freshAccount with sendReset := some "mail rejected" }

/-- An empty store. -/
def emptyStore : Store := { users := [], audits := [] }

/-- An audit entry about a user that has no source: "Susan deleted Seth". -/
def entryWithoutSource : AuditEntry where
  ID := 1
  UserID := 9
  Action := "deleted user"
  TargetType := "users"
  TargetID := 3
  SourceType := ""
  SourceID := 0
  CreatedAt := 100

/-- An audit entry as `HandleImportBatch` writes it. -/
def entryAddedUser : AuditEntry where
  ID := 2
  UserID := 9
  Action := "added user"
  TargetType := "users"
  TargetID := 3
  SourceType := "realms"
  SourceID := 5
  CreatedAt := 130

/-- An audit entry whose target is of a kind the resolver does not know. -/
def entryUnknownTarget : AuditEntry where
  ID := 3
  UserID := 9
  Action := "rotated key"
  TargetType := "keys"
  TargetID := 8
  SourceType := "realms"
  SourceID := 5
  CreatedAt := 170

/-- Loaders over a store that holds every row the sample entries refer to. -/
def sampleLoaders : Loaders :=
  storedLoaders [{ ID := 5 }]
    [{ ID := 3, Email := "carol@example.com", Name := "Carol", Realms := [] }]

/-- Some entry of the list refers to the entity `id` of kind `kind`, as its
target or as its source. -/
def Referenced (entries : List AuditEntry) (kind : String) (id : Nat) : Prop :=
  ∃ e ∈ entries,
    (e.TargetType = kind ∧ e.TargetID = id) ∨ (e.SourceType = kind ∧ e.SourceID = id)

/-- The bulk queries never fail and return exactly the stored rows whose id
was requested, `realmIds` and `userIds` being the ids the store holds. -/
def LoadsExactly (db : Loaders) (realmIds userIds : List Nat) : Prop :=
  (∀ ids, ∃ rs, db.findRealms ids = .ok rs ∧
    ∀ id, id ∈ rs.map Realm.ID ↔ id ∈ ids ∧ id ∈ realmIds) ∧
  (∀ ids, ∃ us, db.findUsers ids = .ok us ∧
    ∀ id, id ∈ us.map User.ID ↔ id ∈ ids ∧ id ∈ userIds)

/-! ## Facts about the import loop -/

theorem importStep_some (scope : LoopVarScope) (cu : User) (realm : Realm) (i : Nat)
    (bu : BatchUser) (o : Outcomes) (s : LoopState) :
    importStep scope realm (some cu) i bu o s = .next (stepResult scope cu realm i (bu, o) s) := by
  obtain ⟨find, created, createErr, sendReset, saveUser, saveAudit, commit⟩ := o
  cases find <;> cases createErr <;> cases created <;> cases sendReset <;>
    cases saveUser <;> cases saveAudit <;> cases commit <;>
    simp [importStep, stepResult, persistStep, Transaction, saveUserAndAudit, SaveUser,
      SaveAuditEntry, Outcomes.recordedError, Outcomes.newlyCreated, savedUserOf, auditOf,
      userOf]

theorem importLoop_some (scope : LoopVarScope) (cu : User) (realm : Realm) :
    ∀ (batch : Batch) (i : Nat) (s : LoopState),
      importLoop scope realm (some cu) i batch s = .next (loopResult scope cu realm i batch s)
  | [], _, _ => rfl
  | (bu, o) :: rest, i, s => by
    simp only [importLoop, importStep_some, loopResult]
    exact importLoop_some scope cu realm rest (i + 1) _

theorem foldl_multierrorAppend_some (l es : List String) :
    l.foldl multierrorAppend (some es) = some (es ++ l) := by
  induction l generalizing es with
  | nil => simp
  | cons e rest ih => simp [List.foldl, multierrorAppend, ih]

theorem foldl_multierrorAppend_none (l : List String) :
    ErrorOrNil (l.foldl multierrorAppend none) = if l = [] then none else some l := by
  cases l with
  | nil => simp [ErrorOrNil]
  | cons e rest =>
    simp [List.foldl, multierrorAppend, foldl_multierrorAppend_some, ErrorOrNil]

theorem loopResult_newUsers (scope : LoopVarScope) (cu : User) (realm : Realm) :
    ∀ (batch : Batch) (i : Nat) (s : LoopState),
      (loopResult scope cu realm i batch s).newUsers = s.newUsers ++ newUserPtrs scope i batch
  | [], _, _ => by simp [loopResult, newUserPtrs]
  | d :: rest, i, s => by
    rw [loopResult, loopResult_newUsers scope cu realm rest (i + 1)]
    simp [stepResult, newUserPtrs]

theorem loopResult_batchErr (scope : LoopVarScope) (cu : User) (realm : Realm) :
    ∀ (batch : Batch) (i : Nat) (s : LoopState),
      (loopResult scope cu realm i batch s).batchErr =
        (recordedErrors batch).foldl multierrorAppend s.batchErr
  | [], _, _ => by simp [loopResult, recordedErrors]
  | d :: rest, i, s => by
    rw [loopResult, loopResult_batchErr scope cu realm rest (i + 1)]
    cases h : d.2.recordedError <;> simp [stepResult, recordedErrors, List.filterMap_cons, h]

theorem loopResult_users (scope : LoopVarScope) (cu : User) (realm : Realm) :
    ∀ (batch : Batch) (i : Nat) (s : LoopState),
      (loopResult scope cu realm i batch s).db.users =
        (batch.filterMap (savedUserOf realm)).foldl upsertUser s.db.users
  | [], _, _ => by simp [loopResult]
  | d :: rest, i, s => by
    rw [loopResult, loopResult_users scope cu realm rest (i + 1)]
    cases h : savedUserOf realm d <;> simp [stepResult, List.filterMap_cons, h]

/-- The written user is a row of the table afterwards. -/
theorem mem_upsertUser (rows : List User) (u : User) : u ∈ upsertUser rows u := by
  induction rows with
  | nil => simp [upsertUser]
  | cons r rest ih =>
    by_cases h : r.ID = u.ID
    · simp [upsertUser, h]
    · simp only [upsertUser, h, if_false]
      exact List.mem_cons_of_mem _ ih

/-- Writing a user whose key is stored keeps the keys of the table as they
are (the row is updated, none is added); a new key goes to the end. -/
theorem upsertUser_ids (rows : List User) (u : User) :
    (upsertUser rows u).map User.ID =
      if u.ID ∈ rows.map User.ID then rows.map User.ID else rows.map User.ID ++ [u.ID] := by
  induction rows with
  | nil => simp [upsertUser]
  | cons r rest ih =>
    by_cases h : r.ID = u.ID
    · simp [upsertUser, h]
    · have hne : ¬ u.ID = r.ID := fun h1 => h h1.symm
      by_cases hk : u.ID ∈ rest.map User.ID
      · rw [if_pos hk] at ih
        have hk1 : u.ID ∈ (r :: rest).map User.ID := by
          rw [List.map_cons]
          exact List.mem_cons_of_mem _ hk
        rw [if_pos hk1]
        simp only [upsertUser, h, if_false, List.map_cons, ih]
      · rw [if_neg hk] at ih
        have hk1 : ¬ u.ID ∈ (r :: rest).map User.ID := by
          rw [List.map_cons, List.mem_cons]
          rintro (h1 | h1)
          · exact hne h1
          · exact hk h1
        rw [if_neg hk1]
        simp only [upsertUser, h, if_false, List.map_cons, ih, List.cons_append]

/-- A table whose keys are distinct keeps distinct keys under a write. -/
theorem upsertUser_nodup (rows : List User) (u : User) (h : (rows.map User.ID).Nodup) :
    ((upsertUser rows u).map User.ID).Nodup := by
  rw [upsertUser_ids]
  by_cases hk : u.ID ∈ rows.map User.ID
  · rwa [if_pos hk]
  · rw [if_neg hk]
    exact List.nodup_append.2 ⟨h, List.nodup_singleton _, by
      intro a ha hb
      rw [List.mem_singleton] at hb
      exact hk (hb ▸ ha)⟩

theorem loopResult_audits (scope : LoopVarScope) (cu : User) (realm : Realm) :
    ∀ (batch : Batch) (i : Nat) (s : LoopState),
      (loopResult scope cu realm i batch s).db.audits =
        s.db.audits ++ batch.filterMap (auditOf cu realm)
  | [], _, _ => by simp [loopResult]
  | d :: rest, i, s => by
    rw [loopResult, loopResult_audits scope cu realm rest (i + 1)]
    cases h : auditOf cu realm d <;> simp [stepResult, List.filterMap_cons, h]

theorem newUserPtrs_eq_nil (scope : LoopVarScope) :
    ∀ (batch : Batch) (i : Nat),
      newUserPtrs scope i batch = [] ↔ ∀ d ∈ batch, d.2.newlyCreated = false
  | [], _ => by simp [newUserPtrs]
  | d :: rest, i => by
    cases h : d.2.newlyCreated <;>
      simp [newUserPtrs, h, newUserPtrs_eq_nil scope rest (i + 1)]

theorem newUserPtrs_length (scope : LoopVarScope) :
    ∀ (batch : Batch) (i : Nat),
      (newUserPtrs scope i batch).length = (batch.filter fun d => d.2.newlyCreated).length
  | [], _ => by simp [newUserPtrs]
  | d :: rest, i => by
    cases h : d.2.newlyCreated <;>
      simp [newUserPtrs, h, List.filter_cons, newUserPtrs_length scope rest (i + 1)]

/-- The state in which the loop starts. -/
theorem HandleImportBatch_batchRequest (scope : LoopVarScope) (db : Store) (realm : Realm)
    (cu : User) (batch : Batch) :
    HandleImportBatch scope db (batchRequest realm cu batch) =
      (respond (loopResult scope cu realm 0 batch
          { newUsers := [], batchErr := none, cells := noCells, db := db }),
        (loopResult scope cu realm 0 batch
          { newUsers := [], batchErr := none, cells := noCells, db := db }).db) := by
  simp [HandleImportBatch, batchRequest, importLoop_some]

theorem ListFormatFunc_ne_empty (es : List String) : ListFormatFunc es ≠ "" := by
  intro h
  have hl := congrArg String.length h
  unfold ListFormatFunc at hl
  split at hl <;> simp only [String.length_append] at hl <;>
    exact absurd hl (by have h2 : "\n\n".length = 2 := by decide
                        have h0 : "".length = 0 := by decide
                        omega)

/-- The reply to a request that reaches the loop, written out. -/
theorem reply_batchRequest (scope : LoopVarScope) (db : Store) (realm : Realm)
    (cu : User) (batch : Batch) :
    (HandleImportBatch scope db (batchRequest realm cu batch)).1 =
      .json
        (if newUserPtrs scope 0 batch = [] ∧ recordedErrors batch ≠ [] then
          StatusInternalServerError else StatusOK)
        { NewUsers :=
            (newUserPtrs scope 0 batch).map
              (loopResult scope cu realm 0 batch
                { newUsers := [], batchErr := none, cells := noCells, db := db }).cells
          Error := if recordedErrors batch = [] then "" else ListFormatFunc (recordedErrors batch)
          ErrorCode :=
            if recordedErrors batch = [] then "" else goStringOfInt StatusInternalServerError } := by
  rw [HandleImportBatch_batchRequest]
  simp only [respond, loopResult_batchErr, loopResult_newUsers, foldl_multierrorAppend_none,
    List.nil_append]
  by_cases he : recordedErrors batch = []
  · simp [he, RenderJSON]
  · by_cases hn : newUserPtrs scope 0 batch = []
    · simp [he, hn, RenderJSON]
    · have : (newUserPtrs scope 0 batch).length ≠ 0 := by
        simpa [List.length_eq_zero] using hn
      simp [he, hn, this, RenderJSON]

/-! ## The claims about `HandleImportBatch` -/

/-- C1: for every batch that reaches the loop (realm and acting user present,
body decoded), whatever the descriptors and the collaborators' outcomes, the
handler renders a response; its status is 500 exactly when the new-users list
is empty and at least one error was recorded, and 200 in every other case. -/
theorem HandleImportBatch_status_iff (scope : LoopVarScope) (db : Store) (realm : Realm)
    (cu : User) (batch : Batch) :
    ∃ status body,
      (HandleImportBatch scope db (batchRequest realm cu batch)).1 = .json status body ∧
      (status = StatusInternalServerError ↔ (body.NewUsers = [] ∧ recordedErrors batch ≠ [])) ∧
      (status = StatusOK ↔ ¬ (body.NewUsers = [] ∧ recordedErrors batch ≠ [])) := by
  refine ⟨_, _, reply_batchRequest scope db realm cu batch, ?_, ?_⟩
  · by_cases h : newUserPtrs scope 0 batch = [] ∧ recordedErrors batch ≠ []
    · simp [h, StatusInternalServerError, StatusOK]
    · simp only [h, if_false, List.map_eq_nil_iff]
      simp [StatusInternalServerError, StatusOK]
  · by_cases h : newUserPtrs scope 0 batch = [] ∧ recordedErrors batch ≠ []
    · simp only [h, and_self, if_true, List.map_eq_nil_iff]
      simp [StatusInternalServerError, StatusOK]
    · simp only [h, if_false, List.map_eq_nil_iff]
      simp

theorem recordedErrors_eq_nil (batch : Batch) :
    recordedErrors batch = [] ↔ ∀ d ∈ batch, d.2.recordedError = none := by
  induction batch with
  | nil => simp [recordedErrors]
  | cons d rest ih =>
    unfold recordedErrors at ih ⊢
    cases h : d.2.recordedError <;> simp [List.filterMap_cons, h, ih]

theorem auditOf_of_recordedError (cu : User) (realm : Realm) (d : BatchUser × Outcomes)
    (h : d.2.recordedError ≠ none) :
    auditOf cu realm d = none ∧ savedUserOf realm d = none := by
  cases hr : d.2.recordedError with
  | none => exact absurd hr h
  | some e => simp [auditOf, savedUserOf, hr]

theorem auditOf_of_succeeded (cu : User) (realm : Realm) (d : BatchUser × Outcomes)
    (h : d.2.recordedError = none) :
    ∃ a u, auditOf cu realm d = some a ∧ savedUserOf realm d = some u ∧
      a.UserID = cu.ID ∧ a.Action = "added user" ∧ a.TargetType = "users" ∧
      a.TargetID = u.ID ∧ a.SourceType = "realms" ∧ a.SourceID = realm.ID := by
  obtain ⟨bu, find, created, createErr, sendReset, saveUser, saveAudit, commit⟩ := d
  cases find <;> cases createErr <;> cases created <;> cases sendReset <;>
    cases saveUser <;> cases saveAudit <;> cases commit <;>
    simp_all [Outcomes.recordedError, auditOf, savedUserOf]

/-- C3: for every batch that reaches the loop with an acting user, the audit
table afterwards is the old table followed by one entry per descriptor that
recorded no error, in input order; the user table is the old one with the
users of exactly those descriptors written to it in input order, each write
updating the stored row of that key or inserting a new row; such an audit
entry carries the acting user's id, action "added user", target "users" with
the saved user's id and source "realms" with the realm's id; a descriptor
that recorded an error leaves neither an audit entry nor a user row. -/
theorem HandleImportBatch_audit_entries (scope : LoopVarScope) (db : Store) (realm : Realm)
    (cu : User) (batch : Batch) :
    (HandleImportBatch scope db (batchRequest realm cu batch)).2.audits =
        db.audits ++ batch.filterMap (auditOf cu realm) ∧
      (HandleImportBatch scope db (batchRequest realm cu batch)).2.users =
        (batch.filterMap (savedUserOf realm)).foldl upsertUser db.users ∧
      (∀ d : BatchUser × Outcomes, d.2.recordedError ≠ none →
        auditOf cu realm d = none ∧ savedUserOf realm d = none) ∧
      (∀ d : BatchUser × Outcomes, d.2.recordedError = none →
        ∃ a u, auditOf cu realm d = some a ∧ savedUserOf realm d = some u ∧
          a.UserID = cu.ID ∧ a.Action = "added user" ∧ a.TargetType = "users" ∧
          a.TargetID = u.ID ∧ a.SourceType = "realms" ∧ a.SourceID = realm.ID) := by
  refine ⟨?_, ?_, fun d h => auditOf_of_recordedError cu realm d h,
    fun d h => auditOf_of_succeeded cu realm d h⟩
  · rw [HandleImportBatch_batchRequest, loopResult_audits]
  · rw [HandleImportBatch_batchRequest, loopResult_users]

/-- Importing a user that is stored already updates its row: the table still
has one row of key 3, now with the realm appended to the memberships, and one
audit entry is written. -/
theorem HandleImportBatch_updates_stored_row :
    (HandleImportBatch .perLoop
        { users :=
            [{ ID := 3, Email := "carol@example.com", Name := "Carol", Realms := [{ ID := 4 }] }]
          audits := [] }
        (batchRequest sampleRealm sampleAdmin [(alice, existingAccount)])).2 =
      { users :=
          [{ ID := 3, Email := "carol@example.com", Name := "Carol"
             Realms := [{ ID := 4 }, { ID := 5 }] }]
        audits :=
          [{ ID := 2, UserID := 9, Action := "added user", TargetType := "users", TargetID := 3
             SourceType := "realms", SourceID := 5, CreatedAt := 101 }] } := by
  decide

/-- C7, evaluated: of two descriptors the first completes every step without
an error (its user is found and its identity account existed already), the
second fails its lookup, and the status is 500 with an empty new-users list,
under either scope of the loop variable. The claim, like the comment on the
guard ("We return partial success if any succeeded"), says 200. -/
theorem partial_success_refused :
    (alice, existingAccount) ∈ [(alice, existingAccount), (bob, lookupFails)] ∧
      existingAccount.recordedError = none ∧
      (HandleImportBatch .perLoop emptyStore
          (batchRequest sampleRealm sampleAdmin
            [(alice, existingAccount), (bob, lookupFails)])).1 =
        .json 500
          { NewUsers := []
            Error := "1 error occurred:\n\t* storage unavailable\n\n"
            ErrorCode := "Ǵ" } ∧
      (HandleImportBatch .perIteration emptyStore
          (batchRequest sampleRealm sampleAdmin
            [(alice, existingAccount), (bob, lookupFails)])).1 =
        .json 500
          { NewUsers := []
            Error := "1 error occurred:\n\t* storage unavailable\n\n"
            ErrorCode := "Ǵ" } := by
  refine ⟨by simp, rfl, by decide, by decide⟩

/-- The partial success the guard `len(newUsers) == 0` does grant: when some
descriptor completes all its steps without an error and its identity account
was newly created, the status is 200, whatever errors other descriptors
recorded. -/
theorem HandleImportBatch_partial_success (scope : LoopVarScope) (db : Store) (realm : Realm)
    (cu : User) (batch : Batch)
    (h : ∃ d ∈ batch, d.2.recordedError = none ∧ d.2.newlyCreated = true) :
    ∃ body,
      (HandleImportBatch scope db (batchRequest realm cu batch)).1 = .json StatusOK body := by
  have hne : newUserPtrs scope 0 batch ≠ [] := by
    intro hnil
    obtain ⟨d, hd, -, hc⟩ := h
    have := (newUserPtrs_eq_nil scope batch 0).1 hnil d hd
    simp [hc] at this
  have hr := reply_batchRequest scope db realm cu batch
  simp only [hne, false_and, if_false] at hr
  exact ⟨_, hr⟩

theorem HandleImportBatch_partial_success_sample :
    (∃ d ∈ [(alice, freshAccount), (bob, lookupFails)],
        d.2.recordedError = none ∧ d.2.newlyCreated = true) ∧
      ∃ body,
        (HandleImportBatch .perLoop emptyStore
            (batchRequest sampleRealm sampleAdmin
              [(alice, freshAccount), (bob, lookupFails)])).1 = .json StatusOK body :=
  ⟨⟨(alice, freshAccount), by simp, rfl, rfl⟩,
    HandleImportBatch_partial_success .perLoop emptyStore sampleRealm sampleAdmin
      [(alice, freshAccount), (bob, lookupFails)] ⟨(alice, freshAccount), by simp, rfl, rfl⟩⟩

/-- C8, the claim as stated fails: a batch of one descriptor whose account is
newly created and whose notification then fails records an error for every
descriptor, and the status is 200. -/
theorem all_fail_counterexample :
    [(alice, notificationFails)] ≠ [] ∧
      (∀ d ∈ [(alice, notificationFails)], d.2.recordedError ≠ none) ∧
      (HandleImportBatch .perLoop emptyStore
          (batchRequest sampleRealm sampleAdmin [(alice, notificationFails)])).1 =
        .json 200
          { NewUsers := [alice]
            Error := "1 error occurred:\n\t* mail rejected\n\n"
            ErrorCode := "Ǵ" } ∧
      (HandleImportBatch .perIteration emptyStore
          (batchRequest sampleRealm sampleAdmin [(alice, notificationFails)])).1 =
        .json 200
          { NewUsers := [alice]
            Error := "1 error occurred:\n\t* mail rejected\n\n"
            ErrorCode := "Ǵ" } := by
  refine ⟨by simp, ?_, by decide, by decide⟩
  intro d hd
  rw [List.mem_singleton.1 hd]
  decide

/-- C8 as amended: in a non-empty batch in which every descriptor records an
error, the response carries a non-empty error message; the status is 500 when
no descriptor's identity account was newly created and 200 when one was. -/
theorem HandleImportBatch_all_fail (scope : LoopVarScope) (db : Store) (realm : Realm)
    (cu : User) (batch : Batch) (hne : batch ≠ [])
    (hall : ∀ d ∈ batch, d.2.recordedError ≠ none) :
    ∃ status body,
      (HandleImportBatch scope db (batchRequest realm cu batch)).1 = .json status body ∧
      body.Error ≠ "" ∧
      ((∀ d ∈ batch, d.2.newlyCreated = false) → status = StatusInternalServerError) ∧
      ((∃ d ∈ batch, d.2.newlyCreated = true) → status = StatusOK) := by
  have herr : recordedErrors batch ≠ [] := by
    intro hnil
    cases batch with
    | nil => exact hne rfl
    | cons d rest =>
      exact hall d (List.mem_cons_self _ _)
        ((recordedErrors_eq_nil _).1 hnil d (List.mem_cons_self _ _))
  refine ⟨_, _, reply_batchRequest scope db realm cu batch, ?_, ?_, ?_⟩
  · simp only [herr, if_false]
    exact ListFormatFunc_ne_empty _
  · intro hno
    have := (newUserPtrs_eq_nil scope batch 0).2 hno
    simp [this, herr]
  · rintro ⟨d, hd, hc⟩
    have hptr : newUserPtrs scope 0 batch ≠ [] := by
      intro hnil
      have := (newUserPtrs_eq_nil scope batch 0).1 hnil d hd
      simp [hc] at this
    simp [hptr]

theorem HandleImportBatch_all_fail_witness :
    [(alice, lookupFails), (bob, lookupFails)] ≠ [] ∧
      (∀ d ∈ [(alice, lookupFails), (bob, lookupFails)], d.2.recordedError ≠ none) ∧
      ∃ status body,
        (HandleImportBatch .perLoop emptyStore
            (batchRequest sampleRealm sampleAdmin
              [(alice, lookupFails), (bob, lookupFails)])).1 = .json status body ∧
        body.Error ≠ "" ∧
        ((∀ d ∈ [(alice, lookupFails), (bob, lookupFails)], d.2.newlyCreated = false) →
          status = StatusInternalServerError) ∧
        ((∃ d ∈ [(alice, lookupFails), (bob, lookupFails)], d.2.newlyCreated = true) →
          status = StatusOK) :=
  ⟨by simp, by simp [lookupFails, Outcomes.recordedError],
    HandleImportBatch_all_fail .perLoop emptyStore sampleRealm sampleAdmin
      [(alice, lookupFails), (bob, lookupFails)] (by simp)
      (by simp [lookupFails, Outcomes.recordedError])⟩

/-! ### What `NewUsers` holds -/

theorem loopResult_cells_perLoop (cu : User) (realm : Realm) :
    ∀ (batch : Batch) (i : Nat) (s : LoopState) (h : batch ≠ []),
      (loopResult .perLoop cu realm i batch s).cells 0 = (batch.getLast h).1
  | [d], i, s, _ => by simp [loopResult, stepResult, Cells.write, LoopVarScope.addr]
  | d :: e :: rest, i, s, _ => by
    rw [loopResult, loopResult_cells_perLoop cu realm (e :: rest) (i + 1) _ (by simp)]
    simp [List.getLast_cons]

theorem newUserPtrs_perLoop :
    ∀ (batch : Batch) (i : Nat),
      newUserPtrs .perLoop i batch =
        List.replicate (batch.filter fun d => d.2.newlyCreated).length 0
  | [], _ => by simp [newUserPtrs]
  | d :: rest, i => by
    cases h : d.2.newlyCreated <;>
      simp [newUserPtrs, h, List.filter_cons, newUserPtrs_perLoop rest (i + 1),
        LoopVarScope.addr, List.replicate_succ]

theorem loopResult_cells_below (cu : User) (realm : Realm) :
    ∀ (batch : Batch) (i : Nat) (s : LoopState) (j : Nat), j < i →
      (loopResult .perIteration cu realm i batch s).cells j = s.cells j
  | [], _, _, _, _ => rfl
  | d :: rest, i, s, j, hj => by
    rw [loopResult, loopResult_cells_below cu realm rest (i + 1) _ j (by omega)]
    have : j ≠ i := by omega
    simp [stepResult, Cells.write, LoopVarScope.addr, this]

theorem newUserPtrs_ge :
    ∀ (batch : Batch) (i : Nat), ∀ p ∈ newUserPtrs .perIteration i batch, i ≤ p
  | [], _, p, hp => by simp [newUserPtrs] at hp
  | d :: rest, i, p, hp => by
    simp only [newUserPtrs, List.mem_append] at hp
    rcases hp with hp | hp
    · cases h : d.2.newlyCreated <;> simp [h, LoopVarScope.addr] at hp
      omega
    · have := newUserPtrs_ge rest (i + 1) p hp
      omega

theorem map_cells_perIteration (cu : User) (realm : Realm) :
    ∀ (batch : Batch) (i : Nat) (s : LoopState),
      (newUserPtrs .perIteration i batch).map
          (loopResult .perIteration cu realm i batch s).cells =
        (batch.filter fun d => d.2.newlyCreated).map Prod.fst
  | [], _, _ => by simp [newUserPtrs]
  | d :: rest, i, s => by
    have hrest := map_cells_perIteration cu realm rest (i + 1)
      (stepResult .perIteration cu realm i d s)
    have hhead : (loopResult .perIteration cu realm (i + 1) rest
        (stepResult .perIteration cu realm i d s)).cells i = d.1 := by
      rw [loopResult_cells_below cu realm rest (i + 1) _ i (by omega)]
      simp [stepResult, Cells.write, LoopVarScope.addr]
    cases h : d.2.newlyCreated <;>
      simp [newUserPtrs, loopResult, h, List.filter_cons, hrest, hhead, LoopVarScope.addr]

/-- With one loop variable for the whole loop, every entry of the rendered
`NewUsers` is the last descriptor of the request, once per newly created
account. -/
theorem newUsers_perLoop (db : Store) (realm : Realm) (cu : User) (batch : Batch)
    (h : batch ≠ []) :
    ∃ status body,
      (HandleImportBatch .perLoop db (batchRequest realm cu batch)).1 = .json status body ∧
      body.NewUsers =
        List.replicate (batch.filter fun d => d.2.newlyCreated).length (batch.getLast h).1 := by
  refine ⟨_, _, reply_batchRequest .perLoop db realm cu batch, ?_⟩
  simp [newUserPtrs_perLoop, loopResult_cells_perLoop cu realm batch 0 _ h]

/-- With a loop variable per iteration, the rendered `NewUsers` is the list of
the descriptors whose account was newly created, in input order. -/
theorem newUsers_perIteration (db : Store) (realm : Realm) (cu : User) (batch : Batch) :
    ∃ status body,
      (HandleImportBatch .perIteration db (batchRequest realm cu batch)).1 =
        .json status body ∧
      body.NewUsers = (batch.filter fun d => d.2.newlyCreated).map Prod.fst := by
  refine ⟨_, _, reply_batchRequest .perIteration db realm cu batch, ?_⟩
  simp [map_cells_perIteration]

/-- Under either scope `NewUsers` has one entry per newly created account, so
at most one per descriptor of the request. -/
theorem newUsers_length (scope : LoopVarScope) (db : Store) (realm : Realm) (cu : User)
    (batch : Batch) :
    ∃ status body,
      (HandleImportBatch scope db (batchRequest realm cu batch)).1 = .json status body ∧
      body.NewUsers.length = (batch.filter fun d => d.2.newlyCreated).length ∧
      body.NewUsers.length ≤ batch.length := by
  refine ⟨_, _, reply_batchRequest scope db realm cu batch, ?_, ?_⟩
  · simp [newUserPtrs_length]
  · simpa [newUserPtrs_length] using List.length_filter_le _ batch

/-- C2, evaluated: with the loop variable of Go before 1.22, a request for two
new accounts (alice, then bob) is answered with bob twice, and a request in
which only alice's account is new is answered with bob, whose account existed
already. The claim says alice, bob in the first case and alice in the
second. -/
theorem newUsers_aliasing :
    (HandleImportBatch .perLoop emptyStore
        (batchRequest sampleRealm sampleAdmin
          [(alice, freshAccount), (bob, freshAccount)])).1 =
      .json 200 { NewUsers := [bob, bob], Error := "", ErrorCode := "" } ∧
    (HandleImportBatch .perLoop emptyStore
        (batchRequest sampleRealm sampleAdmin
          [(alice, freshAccount), (bob, existingAccount)])).1 =
      .json 200 { NewUsers := [bob], Error := "", ErrorCode := "" } ∧
    freshAccount.newlyCreated = true ∧ existingAccount.newlyCreated = false ∧ alice ≠ bob := by
  refine ⟨by decide, by decide, rfl, rfl, by decide⟩

theorem respond_ne_missingUser (s : LoopState) : respond s ≠ .missingUser := by
  unfold respond
  cases ErrorOrNil s.batchErr with
  | none => simp [RenderJSON]
  | some es =>
    by_cases h : s.newUsers.length = 0 <;> simp [h, RenderJSON]

/-- The handler never answers with the missing-user response: the test that
guards it repeats the realm test, which has already passed. -/
theorem HandleImportBatch_ne_missingUser (scope : LoopVarScope) (db : Store) (r : Request) :
    (HandleImportBatch scope db r).1 ≠ .missingUser := by
  obtain ⟨realm, currentUser, body⟩ := r
  cases realm with
  | none => simp [HandleImportBatch]
  | some realm =>
    cases body with
    | error e => simp [HandleImportBatch]
    | ok users =>
      simp only [HandleImportBatch]
      cases importLoop scope realm currentUser 0 users
          { newUsers := [], batchErr := none, cells := noCells, db := db } with
      | nilDereference s1 => simp
      | next s1 => simpa using respond_ne_missingUser s1

/-- C9, evaluated: a request with a realm and no acting user is not answered
with the missing-user response; its descriptor is processed, the user is
saved inside the transaction, and reading the acting user's id faults. -/
theorem missing_user_fault :
    HandleImportBatch .perLoop emptyStore
        { realm := some sampleRealm
          currentUser := none
          body := .ok [(alice, existingAccount)] } =
      (.nilDereference, emptyStore) ∧
    HandleImportBatch .perIteration emptyStore
        { realm := some sampleRealm
          currentUser := none
          body := .ok [(alice, existingAccount)] } =
      (.nilDereference, emptyStore) := by
  refine ⟨by decide, by decide⟩

/-- C10, evaluated: after one recorded error the response's `ErrorCode` is the
one-character text of code point 500, not the decimal text "500". -/
theorem errorCode_not_decimal :
    (HandleImportBatch .perLoop emptyStore
        (batchRequest sampleRealm sampleAdmin [(alice, lookupFails)])).1 =
      .json 500
        { NewUsers := []
          Error := "1 error occurred:\n\t* storage unavailable\n\n"
          ErrorCode := "Ǵ" } ∧
    goStringOfInt StatusInternalServerError = "Ǵ" ∧
    goStringOfInt StatusInternalServerError ≠ "500" := by
  refine ⟨by decide, by decide, by decide⟩

/-! ## Facts about `LoadAuditList` -/

theorem GoMap.mem_keys_set {ν : Type} (m : GoMap String ν) (k : String) (v : ν) :
    k ∈ (m.set k v).keys := by
  induction m with
  | nil => simp [GoMap.set, GoMap.keys]
  | cons p rest ih =>
    obtain ⟨k1, v1⟩ := p
    by_cases h : k1 = k
    · simp [GoMap.set, GoMap.keys, h]
    · simp only [GoMap.set, h, if_false]
      simpa [GoMap.keys] using Or.inr ih

theorem GoMap.mem_keys_set_of_mem {ν : Type} (m : GoMap String ν) (k : String) (v : ν)
    (k0 : String) (h0 : k0 ∈ m.keys) : k0 ∈ (m.set k v).keys := by
  induction m with
  | nil => simp [GoMap.keys] at h0
  | cons p rest ih =>
    obtain ⟨k1, v1⟩ := p
    by_cases h : k1 = k
    · simp only [GoMap.set, h, if_true]
      simpa [GoMap.keys, h] using h0
    · simp only [GoMap.set, h, if_false]
      simp only [GoMap.keys, List.map_cons, List.mem_cons] at h0 ⊢
      rcases h0 with h0 | h0
      · exact Or.inl h0
      · exact Or.inr (ih h0)

theorem mem_keys_addLookup (m : GoMap String (List Nat)) (k : String) (id : Nat) :
    k ∈ (addLookup m k id).keys := by
  unfold addLookup
  exact GoMap.mem_keys_set _ _ _

theorem mem_keys_addLookup_of_mem (m : GoMap String (List Nat)) (k : String) (id : Nat)
    (k0 : String) (h0 : k0 ∈ m.keys) : k0 ∈ (addLookup m k id).keys := by
  unfold addLookup
  apply GoMap.mem_keys_set_of_mem
  split
  · exact h0
  · exact GoMap.mem_keys_set_of_mem _ _ _ _ h0

/-- Every kind named by an entry, as target or as source, is a key of
`lookups` when the first loop is done. -/
theorem mem_keys_foldl_addLookup (entries : List AuditEntry) :
    ∀ (m : GoMap String (List Nat)) (k : String),
      (k ∈ m.keys ∨ ∃ e ∈ entries, e.TargetType = k ∨ e.SourceType = k) →
      k ∈ (entries.foldl
        (fun lookups e =>
          addLookup (addLookup lookups e.TargetType e.TargetID) e.SourceType e.SourceID)
        m).keys := by
  induction entries with
  | nil =>
    intro m k h
    rcases h with h | ⟨e, he, -⟩
    · exact h
    · simp at he
  | cons e rest ih =>
    intro m k h
    rw [List.foldl_cons]
    apply ih
    rcases h with h | ⟨e1, he1, hk⟩
    · exact Or.inl (mem_keys_addLookup_of_mem _ _ _ _ (mem_keys_addLookup_of_mem _ _ _ _ h))
    · rcases List.mem_cons.1 he1 with rfl | hmem
      · left
        rcases hk with hk | hk
        · subst hk
          exact mem_keys_addLookup_of_mem _ _ _ _ (mem_keys_addLookup _ _ _)
        · subst hk
          exact mem_keys_addLookup _ _ _
      · exact Or.inr ⟨e1, hmem, hk⟩

theorem mem_keys_buildLookups (entries : List AuditEntry) (e : AuditEntry) (he : e ∈ entries) :
    e.TargetType ∈ (buildLookups entries).keys ∧ e.SourceType ∈ (buildLookups entries).keys :=
  ⟨mem_keys_foldl_addLookup entries [] _ (Or.inr ⟨e, he, Or.inl rfl⟩),
    mem_keys_foldl_addLookup entries [] _ (Or.inr ⟨e, he, Or.inr rfl⟩)⟩

/-- The second loop fails as soon as one of its pairs has an unknown kind; when
no bulk query fails, the failure is the unknown-association error of one such
kind. -/
theorem loadLoop_unknown (db : Loaders) :
    ∀ (kvs : List (String × List Nat)) (l : AuditList),
      (∃ k ∈ kvs.map Prod.fst, k ≠ "realms" ∧ k ≠ "users") →
      (∃ msg, loadLoop db kvs l = .error msg) ∧
      ((∀ ids, ∃ rs, db.findRealms ids = .ok rs) → (∀ ids, ∃ us, db.findUsers ids = .ok us) →
        ∃ k ∈ kvs.map Prod.fst, k ≠ "realms" ∧ k ≠ "users" ∧
          loadLoop db kvs l = .error ("unknown polymorphic association " ++ k))
  | [], _, h => by simp at h
  | (k, v) :: rest, l, h => by
    by_cases hr : k = "realms"
    · have hrest : ∃ k0 ∈ rest.map Prod.fst, k0 ≠ "realms" ∧ k0 ≠ "users" := by
        obtain ⟨k0, hk0, h1, h2⟩ := h
        simp only [List.map_cons, List.mem_cons] at hk0
        rcases hk0 with rfl | hk0
        · exact absurd hr h1
        · exact ⟨k0, hk0, h1, h2⟩
      cases hq : db.findRealms v with
      | error err =>
        refine ⟨⟨_, by simp [loadLoop, hr, hq]; rfl⟩, ?_⟩
        intro hR _
        obtain ⟨rs, hrs⟩ := hR v
        rw [hq] at hrs
        cases hrs
      | ok realms =>
        have ih := loadLoop_unknown db rest
          { l with PreloadedRealms := realms.foldl (fun m r => m.set r.ID r) l.PreloadedRealms }
          hrest
        simp only [loadLoop, hr, if_true, hq]
        refine ⟨ih.1, fun hR hU => ?_⟩
        obtain ⟨k0, hk0, h1, h2, h3⟩ := ih.2 hR hU
        exact ⟨k0, by simp [List.mem_map] at hk0 ⊢; exact Or.inr hk0, h1, h2, h3⟩
    · by_cases hu : k = "users"
      · have hrest : ∃ k0 ∈ rest.map Prod.fst, k0 ≠ "realms" ∧ k0 ≠ "users" := by
          obtain ⟨k0, hk0, h1, h2⟩ := h
          simp only [List.map_cons, List.mem_cons] at hk0
          rcases hk0 with rfl | hk0
          · exact absurd hu h2
          · exact ⟨k0, hk0, h1, h2⟩
        cases hq : db.findUsers v with
        | error err =>
          refine ⟨⟨_, by simp [loadLoop, hr, hu, hq]; rfl⟩, ?_⟩
          intro _ hU
          obtain ⟨us, hus⟩ := hU v
          rw [hq] at hus
          cases hus
        | ok users =>
          have ih := loadLoop_unknown db rest
            { l with PreloadedUsers := users.foldl (fun m u => m.set u.ID u) l.PreloadedUsers }
            hrest
          simp only [loadLoop, hr, hu, if_false, if_true, hq]
          refine ⟨ih.1, fun hR hU => ?_⟩
          obtain ⟨k0, hk0, h1, h2, h3⟩ := ih.2 hR hU
          exact ⟨k0, by simp [List.mem_map] at hk0 ⊢; exact Or.inr hk0, h1, h2, h3⟩
      · refine ⟨⟨_, by simp [loadLoop, hr, hu]; rfl⟩, fun _ _ => ?_⟩
        exact ⟨k, by simp, hr, hu, by simp [loadLoop, hr, hu]⟩

/-- The function fails whenever an entry names an unknown kind, whatever the
order of the range statement. -/
theorem LoadAuditList_unknown_kind (db : Loaders)
    (order : GoMap String (List Nat) → List (String × List Nat)) (horder : IsRangeOrder order)
    (entries : List AuditEntry) (k : String) (hk : k ∈ (buildLookups entries).keys)
    (h1 : k ≠ "realms") (h2 : k ≠ "users") :
    (∃ msg, LoadAuditList db order entries = .error msg) ∧
      ((∀ ids, ∃ rs, db.findRealms ids = .ok rs) → (∀ ids, ∃ us, db.findUsers ids = .ok us) →
        ∃ k0, k0 ≠ "realms" ∧ k0 ≠ "users" ∧
          LoadAuditList db order entries = .error ("unknown polymorphic association " ++ k0)) := by
  have hmem : k ∈ (order (buildLookups entries)).map Prod.fst :=
    ((horder (buildLookups entries)).map Prod.fst).mem_iff.2 hk
  have key := loadLoop_unknown db (order (buildLookups entries))
    { Entries := entries, PreloadedRealms := [], PreloadedUsers := [] } ⟨k, hmem, h1, h2⟩
  refine ⟨key.1, fun hR hU => ?_⟩
  obtain ⟨k0, -, h3, h4, h5⟩ := key.2 hR hU
  exact ⟨k0, h3, h4, h5⟩

/-- The function fails on every list that holds an entry without a source,
whatever the order of the range statement and the answers of the loaders: the
empty kind of the absent source is a key of `lookups`. -/
theorem LoadAuditList_fails_without_source (db : Loaders)
    (order : GoMap String (List Nat) → List (String × List Nat)) (horder : IsRangeOrder order)
    (entries : List AuditEntry) (h : ∃ e ∈ entries, e.SourceType = "") :
    ∃ msg, LoadAuditList db order entries = .error msg := by
  obtain ⟨e, he, hs⟩ := h
  have hk := (mem_keys_buildLookups entries e he).2
  rw [hs] at hk
  exact (LoadAuditList_unknown_kind db order horder entries "" hk (by decide) (by decide)).1

/-! ### When every source is present -/

theorem GoMap.keys_set {κ ν : Type} [DecidableEq κ] (m : GoMap κ ν) (k : κ) (v : ν) :
    (m.set k v).keys = if k ∈ m.keys then m.keys else m.keys ++ [k] := by
  induction m with
  | nil => simp [GoMap.set, GoMap.keys]
  | cons p rest ih =>
    obtain ⟨k1, v1⟩ := p
    by_cases h : k1 = k
    · simp [GoMap.set, GoMap.keys, h]
    · have hne : ¬ k = k1 := fun h1 => h h1.symm
      simp only [GoMap.keys] at ih
      by_cases hk : k ∈ rest.map Prod.fst
      · simp [GoMap.set, GoMap.keys, h, hne, ih, hk]
      · simp [GoMap.set, GoMap.keys, h, hne, ih, hk]

theorem GoMap.mem_keys_set_iff {κ ν : Type} [DecidableEq κ] (m : GoMap κ ν) (k : κ) (v : ν)
    (k0 : κ) : k0 ∈ (m.set k v).keys ↔ k0 = k ∨ k0 ∈ m.keys := by
  rw [GoMap.keys_set]
  by_cases hk : k ∈ m.keys
  · rw [if_pos hk]
    constructor
    · exact Or.inr
    · rintro (rfl | h)
      · exact hk
      · exact h
  · rw [if_neg hk]
    simp [or_comm]

theorem GoMap.mem_set {κ ν : Type} [DecidableEq κ] (m : GoMap κ ν) (k : κ) (v : ν)
    (p : κ × ν) (hp : p ∈ m.set k v) : p = (k, v) ∨ p ∈ m := by
  induction m with
  | nil => simpa [GoMap.set] using hp
  | cons q rest ih =>
    obtain ⟨k1, v1⟩ := q
    by_cases h : k1 = k
    · simp only [GoMap.set, h, if_true, List.mem_cons] at hp
      rcases hp with hp | hp
      · exact Or.inl hp
      · exact Or.inr (List.mem_cons_of_mem _ hp)
    · simp only [GoMap.set, h, if_false, List.mem_cons] at hp
      rcases hp with hp | hp
      · exact Or.inr (by simp [hp])
      · rcases ih hp with h1 | h1
        · exact Or.inl h1
        · exact Or.inr (List.mem_cons_of_mem _ h1)

theorem GoMap.mem_set_self {κ ν : Type} [DecidableEq κ] (m : GoMap κ ν) (k : κ) (v : ν) :
    (k, v) ∈ m.set k v := by
  induction m with
  | nil => simp [GoMap.set]
  | cons q rest ih =>
    obtain ⟨k1, v1⟩ := q
    by_cases h : k1 = k
    · simp [GoMap.set, h]
    · simp only [GoMap.set, h, if_false]
      exact List.mem_cons_of_mem _ ih

theorem GoMap.mem_set_of_mem {κ ν : Type} [DecidableEq κ] (m : GoMap κ ν) (k : κ) (v : ν)
    (q : κ × ν) (hq : q ∈ m) : q ∈ m.set k v ∨ (q.1 = k ∧ m.get k = some q.2) := by
  induction m with
  | nil => simp at hq
  | cons p rest ih =>
    obtain ⟨k1, v1⟩ := p
    by_cases h : k1 = k
    · rcases List.mem_cons.1 hq with rfl | hq
      · exact Or.inr ⟨h, by simp [GoMap.get, h]⟩
      · exact Or.inl (by simp only [GoMap.set, h, if_true]; exact List.mem_cons_of_mem _ hq)
    · rcases List.mem_cons.1 hq with rfl | hq
      · exact Or.inl (by simp [GoMap.set, h])
      · rcases ih hq with h1 | ⟨h1, h2⟩
        · exact Or.inl (by simp only [GoMap.set, h, if_false]; exact List.mem_cons_of_mem _ h1)
        · exact Or.inr ⟨h1, by simp [GoMap.get, h, h2]⟩

theorem GoMap.get_set_self {κ ν : Type} [DecidableEq κ] (m : GoMap κ ν) (k : κ) (v : ν) :
    (m.set k v).get k = some v := by
  induction m with
  | nil => simp [GoMap.set, GoMap.get]
  | cons q rest ih =>
    obtain ⟨k1, v1⟩ := q
    by_cases h : k1 = k
    · simp [GoMap.set, GoMap.get, h]
    · simp [GoMap.set, GoMap.get, h, ih]

theorem GoMap.mem_of_get {κ ν : Type} [DecidableEq κ] (m : GoMap κ ν) (k : κ) (v : ν)
    (h : m.get k = some v) : (k, v) ∈ m := by
  induction m with
  | nil => simp [GoMap.get] at h
  | cons q rest ih =>
    obtain ⟨k1, v1⟩ := q
    by_cases hk : k1 = k
    · simp only [GoMap.get, hk, if_true, Option.some.injEq] at h
      simp [hk, h]
    · simp only [GoMap.get, hk, if_false] at h
      exact List.mem_cons_of_mem _ (ih h)

/-- What `addLookup` can add: a pair of `lookups` stays or grows by `id`. -/
theorem mem_addLookup (m : GoMap String (List Nat)) (k : String) (id : Nat)
    (p : String × List Nat) (hp : p ∈ addLookup m k id) :
    p ∈ m ∨ (p.1 = k ∧ ∀ x ∈ p.2, x = id ∨ ∃ q ∈ m, q.1 = k ∧ x ∈ q.2) := by
  unfold addLookup at hp
  cases hg : m.get k with
  | some v =>
    simp only [hg, Option.isSome_some, if_true, Option.getD_some] at hp
    rcases GoMap.mem_set _ _ _ _ hp with rfl | h
    · refine Or.inr ⟨rfl, fun x hx => ?_⟩
      rcases List.mem_append.1 hx with hx | hx
      · exact Or.inr ⟨(k, v), GoMap.mem_of_get _ _ _ hg, rfl, hx⟩
      · exact Or.inl (by simpa using hx)
    · exact Or.inl h
  | none =>
    simp only [hg, Option.isSome_none, Bool.false_eq_true, if_false, GoMap.get_set_self,
      Option.getD_some, List.nil_append] at hp
    rcases GoMap.mem_set _ _ _ _ hp with rfl | h
    · exact Or.inr ⟨rfl, fun x hx => Or.inl (by simpa using hx)⟩
    · rcases GoMap.mem_set _ _ _ _ h with rfl | h
      · exact Or.inr ⟨rfl, fun x hx => by simp at hx⟩
      · exact Or.inl h

/-- The method `addLookup` loses nothing. -/
theorem addLookup_mono (m : GoMap String (List Nat)) (k : String) (id : Nat)
    (q : String × List Nat) (hq : q ∈ m) :
    ∃ p ∈ addLookup m k id, p.1 = q.1 ∧ ∀ x ∈ q.2, x ∈ p.2 := by
  have step : ∀ (m1 : GoMap String (List Nat)), q ∈ m1 →
      ∃ p ∈ m1.set k ((m1.get k).getD [] ++ [id]), p.1 = q.1 ∧ ∀ x ∈ q.2, x ∈ p.2 := by
    intro m1 h1
    rcases GoMap.mem_set_of_mem m1 k ((m1.get k).getD [] ++ [id]) q h1 with h | ⟨hk, hg⟩
    · exact ⟨q, h, rfl, fun x hx => hx⟩
    · refine ⟨_, GoMap.mem_set_self _ _ _, hk.symm, fun x hx => ?_⟩
      simp [hg, hx]
  unfold addLookup
  split
  · exact step m hq
  · rcases GoMap.mem_set_of_mem m k [] q hq with h | ⟨-, hg⟩
    · exact step _ h
    · rename_i hnone
      simp [hg] at hnone

/-- The id is under its kind after `addLookup`. -/
theorem addLookup_self (m : GoMap String (List Nat)) (k : String) (id : Nat) :
    ∃ p ∈ addLookup m k id, p.1 = k ∧ id ∈ p.2 := by
  unfold addLookup
  exact ⟨_, GoMap.mem_set_self _ _ _, rfl, by simp⟩

theorem buildLookups_concat (pre : List AuditEntry) (e : AuditEntry) :
    buildLookups (pre ++ [e]) =
      addLookup (addLookup (buildLookups pre) e.TargetType e.TargetID)
        e.SourceType e.SourceID := by
  simp [buildLookups, List.foldl_append]

/-- Every pair of `lookups` has the kind of some entry and holds only ids that
an entry refers to under that kind. -/
theorem buildLookups_sound (entries : List AuditEntry) :
    ∀ p ∈ buildLookups entries,
      (∃ e ∈ entries, e.TargetType = p.1 ∨ e.SourceType = p.1) ∧
        ∀ id ∈ p.2, Referenced entries p.1 id := by
  induction entries using List.reverseRecOn with
  | nil => intro p hp; simp [buildLookups] at hp
  | append_singleton pre e ih =>
    intro p hp
    have weaken : ∀ q ∈ buildLookups pre,
        (∃ e0 ∈ pre ++ [e], e0.TargetType = q.1 ∨ e0.SourceType = q.1) ∧
          ∀ id ∈ q.2, Referenced (pre ++ [e]) q.1 id := by
      intro q hq
      obtain ⟨⟨e0, he0, h0⟩, h1⟩ := ih q hq
      refine ⟨⟨e0, List.mem_append_left _ he0, h0⟩, fun id hid => ?_⟩
      obtain ⟨e1, he1, h2⟩ := h1 id hid
      exact ⟨e1, List.mem_append_left _ he1, h2⟩
    have hlast : e ∈ pre ++ [e] := by simp
    have mid : ∀ q ∈ addLookup (buildLookups pre) e.TargetType e.TargetID,
        (∃ e0 ∈ pre ++ [e], e0.TargetType = q.1 ∨ e0.SourceType = q.1) ∧
          ∀ id ∈ q.2, Referenced (pre ++ [e]) q.1 id := by
      intro q hq
      rcases mem_addLookup _ _ _ _ hq with h | ⟨hk, hx⟩
      · exact weaken q h
      · refine ⟨⟨e, hlast, Or.inl hk.symm⟩, fun id hid => ?_⟩
        rcases hx id hid with rfl | ⟨q0, hq0, hk0, hid0⟩
        · exact ⟨e, hlast, Or.inl ⟨hk.symm, rfl⟩⟩
        · have := (weaken q0 hq0).2 id hid0
          rwa [hk0, ← hk] at this
    rw [buildLookups_concat] at hp
    rcases mem_addLookup _ _ _ _ hp with h | ⟨hk, hx⟩
    · exact mid p h
    · refine ⟨⟨e, hlast, Or.inr hk.symm⟩, fun id hid => ?_⟩
      rcases hx id hid with rfl | ⟨q0, hq0, hk0, hid0⟩
      · exact ⟨e, hlast, Or.inr ⟨hk.symm, rfl⟩⟩
      · have := (mid q0 hq0).2 id hid0
        rwa [hk0, ← hk] at this

/-- Every id an entry refers to is in `lookups` under its kind. -/
theorem buildLookups_complete (entries : List AuditEntry) :
    ∀ kind id, Referenced entries kind id →
      ∃ p ∈ buildLookups entries, p.1 = kind ∧ id ∈ p.2 := by
  induction entries using List.reverseRecOn with
  | nil => rintro kind id ⟨e, he, -⟩; simp at he
  | append_singleton pre e ih =>
    rintro kind id ⟨e0, he0, h0⟩
    rw [buildLookups_concat]
    rcases List.mem_append.1 he0 with hpre | hlast
    · obtain ⟨p, hp, hk, hid⟩ := ih kind id ⟨e0, hpre, h0⟩
      obtain ⟨p1, hp1, hk1, hsub1⟩ := addLookup_mono _ e.TargetType e.TargetID p hp
      obtain ⟨p2, hp2, hk2, hsub2⟩ := addLookup_mono _ e.SourceType e.SourceID p1 hp1
      exact ⟨p2, hp2, by rw [hk2, hk1, hk], hsub2 _ (hsub1 _ hid)⟩
    · have he : e0 = e := by simpa using hlast
      subst he
      rcases h0 with ⟨hk, hid⟩ | ⟨hk, hid⟩
      · obtain ⟨p1, hp1, hk1, hid1⟩ := addLookup_self (buildLookups pre) e0.TargetType e0.TargetID
        obtain ⟨p2, hp2, hk2, hsub2⟩ := addLookup_mono _ e0.SourceType e0.SourceID p1 hp1
        exact ⟨p2, hp2, by rw [hk2, hk1, hk], hsub2 _ (by rw [← hid]; exact hid1)⟩
      · obtain ⟨p2, hp2, hk2, hid2⟩ :=
          addLookup_self (addLookup (buildLookups pre) e0.TargetType e0.TargetID)
            e0.SourceType e0.SourceID
        exact ⟨p2, hp2, by rw [hk2, hk], by rw [← hid]; exact hid2⟩

theorem GoMap.nodup_keys_set {κ ν : Type} [DecidableEq κ] (m : GoMap κ ν) (k : κ) (v : ν)
    (h : m.keys.Nodup) : (m.set k v).keys.Nodup := by
  rw [GoMap.keys_set]
  by_cases hk : k ∈ m.keys
  · rwa [if_pos hk]
  · rw [if_neg hk]
    exact List.nodup_append.2 ⟨h, List.nodup_singleton k, by
      intro a ha hb
      rw [List.mem_singleton] at hb
      exact hk (hb ▸ ha)⟩

/-- The keys of a preloaded map after the rows of one bulk query are stored. -/
theorem mem_keys_foldl_set {ν : Type} (key : ν → Nat) (rs : List ν) :
    ∀ (m : GoMap Nat ν) (id : Nat),
      id ∈ (rs.foldl (fun m r => m.set (key r) r) m).keys ↔ id ∈ m.keys ∨ id ∈ rs.map key := by
  induction rs with
  | nil => intro m id; simp
  | cons r rest ih =>
    intro m id
    rw [List.foldl_cons, ih, GoMap.mem_keys_set_iff]
    simp only [List.map_cons, List.mem_cons]
    tauto

theorem nodup_keys_foldl_set {ν : Type} (key : ν → Nat) (rs : List ν) :
    ∀ (m : GoMap Nat ν), m.keys.Nodup →
      (rs.foldl (fun m r => m.set (key r) r) m).keys.Nodup := by
  induction rs with
  | nil => intro m h; simpa using h
  | cons r rest ih =>
    intro m h
    rw [List.foldl_cons]
    exact ih _ (GoMap.nodup_keys_set _ _ _ h)

/-- The second loop succeeds when every kind is known and the bulk queries
answer exactly; the preloaded maps gain the requested ids the store holds. -/
theorem loadLoop_known (db : Loaders) (realmIds userIds : List Nat)
    (hdb : LoadsExactly db realmIds userIds) :
    ∀ (kvs : List (String × List Nat)) (l : AuditList),
      (∀ p ∈ kvs, p.1 = "realms" ∨ p.1 = "users") →
      ∃ l1, loadLoop db kvs l = .ok l1 ∧ l1.Entries = l.Entries ∧
        (∀ id, id ∈ l1.PreloadedRealms.keys ↔
          id ∈ l.PreloadedRealms.keys ∨
            ∃ p ∈ kvs, p.1 = "realms" ∧ id ∈ p.2 ∧ id ∈ realmIds) ∧
        (∀ id, id ∈ l1.PreloadedUsers.keys ↔
          id ∈ l.PreloadedUsers.keys ∨
            ∃ p ∈ kvs, p.1 = "users" ∧ id ∈ p.2 ∧ id ∈ userIds) ∧
        (l.PreloadedRealms.keys.Nodup → l1.PreloadedRealms.keys.Nodup) ∧
        (l.PreloadedUsers.keys.Nodup → l1.PreloadedUsers.keys.Nodup)
  | [], l, _ => ⟨l, rfl, rfl, by simp, by simp, id, id⟩
  | (k, v) :: rest, l, hk => by
    have hrest : ∀ p ∈ rest, p.1 = "realms" ∨ p.1 = "users" :=
      fun p hp => hk p (List.mem_cons_of_mem _ hp)
    by_cases hr : k = "realms"
    · obtain ⟨rs, hq, hrs⟩ := hdb.1 v
      obtain ⟨l1, h1, h2, h3, h4, h5, h6⟩ := loadLoop_known db realmIds userIds hdb rest
        { l with PreloadedRealms := rs.foldl (fun m r => m.set r.ID r) l.PreloadedRealms } hrest
      refine ⟨l1, by simp only [loadLoop, hr, if_true, hq]; exact h1, h2, ?_, ?_, ?_, h6⟩
      · intro id
        rw [h3 id, mem_keys_foldl_set Realm.ID rs, hrs id]
        simp only [List.mem_cons, exists_eq_or_imp, hr, true_and]
        tauto
      · intro id
        rw [h4 id]
        have hne : ¬ k = "users" := by rw [hr]; decide
        simp only [List.mem_cons, exists_eq_or_imp, hne, false_and, false_or]
      · intro hnd
        exact h5 (nodup_keys_foldl_set Realm.ID rs _ hnd)
    · have hu : k = "users" := by
        rcases hk (k, v) (List.mem_cons_self _ _) with h | h
        · exact absurd h hr
        · exact h
      obtain ⟨us, hq, hus⟩ := hdb.2 v
      obtain ⟨l1, h1, h2, h3, h4, h5, h6⟩ := loadLoop_known db realmIds userIds hdb rest
        { l with PreloadedUsers := us.foldl (fun m u => m.set u.ID u) l.PreloadedUsers } hrest
      refine ⟨l1, by simp only [loadLoop, hr, hu, if_false, if_true, hq]; exact h1, h2,
        ?_, ?_, h5, ?_⟩
      · intro id
        rw [h3 id]
        simp only [List.mem_cons, exists_eq_or_imp, hr, false_and, false_or]
      · intro id
        rw [h4 id, mem_keys_foldl_set User.ID us, hus id]
        simp only [List.mem_cons, exists_eq_or_imp, hu, true_and]
        tauto
      · intro hnd
        exact h6 (nodup_keys_foldl_set User.ID us _ hnd)

theorem loadsExactly_storedLoaders (realms : List Realm) (users : List User) :
    LoadsExactly (storedLoaders realms users) (realms.map Realm.ID) (users.map User.ID) := by
  constructor
  · intro ids
    refine ⟨_, rfl, fun id => ?_⟩
    simp only [List.mem_map, List.mem_filter, decide_eq_true_eq]
    constructor
    · rintro ⟨r, ⟨hr, hin⟩, rfl⟩
      exact ⟨hin, r, hr, rfl⟩
    · rintro ⟨hin, r, hr, rfl⟩
      exact ⟨r, ⟨hr, hin⟩, rfl⟩
  · intro ids
    refine ⟨_, rfl, fun id => ?_⟩
    simp only [List.mem_map, List.mem_filter, decide_eq_true_eq]
    constructor
    · rintro ⟨u, ⟨hu, hin⟩, rfl⟩
      exact ⟨hin, u, hu, rfl⟩
    · rintro ⟨hin, u, hu, rfl⟩
      exact ⟨u, ⟨hu, hin⟩, rfl⟩

/-- When every target and every source is of a known kind (no source is
absent), the bulk queries answer exactly and every referenced id is stored,
`LoadAuditList` succeeds, in any order of the range statement, and the keys of
each preloaded map are exactly the ids referenced under its kind, each
once. -/
theorem LoadAuditList_sources_present (db : Loaders)
    (order : GoMap String (List Nat) → List (String × List Nat)) (horder : IsRangeOrder order)
    (realmIds userIds : List Nat) (hdb : LoadsExactly db realmIds userIds)
    (entries : List AuditEntry)
    (hkinds : ∀ e ∈ entries,
      (e.TargetType = "realms" ∨ e.TargetType = "users") ∧
        (e.SourceType = "realms" ∨ e.SourceType = "users"))
    (hrealms : ∀ id, Referenced entries "realms" id → id ∈ realmIds)
    (husers : ∀ id, Referenced entries "users" id → id ∈ userIds) :
    ∃ l, LoadAuditList db order entries = .ok l ∧ l.Entries = entries ∧
      (∀ id, id ∈ l.PreloadedRealms.keys ↔ Referenced entries "realms" id) ∧
      (∀ id, id ∈ l.PreloadedUsers.keys ↔ Referenced entries "users" id) ∧
      l.PreloadedRealms.keys.Nodup ∧ l.PreloadedUsers.keys.Nodup := by
  have hperm := horder (buildLookups entries)
  have hknown : ∀ p ∈ order (buildLookups entries), p.1 = "realms" ∨ p.1 = "users" := by
    intro p hp
    obtain ⟨⟨e, he, h⟩, -⟩ := buildLookups_sound entries p (hperm.mem_iff.1 hp)
    rcases h with h | h
    · rw [← h]; exact (hkinds e he).1
    · rw [← h]; exact (hkinds e he).2
  obtain ⟨l, h1, h2, h3, h4, h5, h6⟩ := loadLoop_known db realmIds userIds hdb
    (order (buildLookups entries))
    { Entries := entries, PreloadedRealms := [], PreloadedUsers := [] } hknown
  have hiff : ∀ (kind : String) (ids : List Nat),
      (∀ id, Referenced entries kind id → id ∈ ids) → ∀ id,
      (∃ p ∈ order (buildLookups entries), p.1 = kind ∧ id ∈ p.2 ∧ id ∈ ids) ↔
        Referenced entries kind id := by
    intro kind ids hall id
    constructor
    · rintro ⟨p, hp, hk, hid, -⟩
      have := (buildLookups_sound entries p (hperm.mem_iff.1 hp)).2 id hid
      rwa [hk] at this
    · intro href
      obtain ⟨p, hp, hk, hid⟩ := buildLookups_complete entries kind id href
      exact ⟨p, hperm.mem_iff.2 hp, hk, hid, hall id href⟩
  refine ⟨l, h1, h2, fun id => ?_, fun id => ?_, h5 (by simp [GoMap.keys]),
    h6 (by simp [GoMap.keys])⟩
  · rw [h3 id, ← hiff "realms" realmIds hrealms id]
    simp [GoMap.keys]
  · rw [h4 id, ← hiff "users" userIds husers id]
    simp [GoMap.keys]

theorem LoadAuditList_sources_present_sample :
    ∃ l, LoadAuditList sampleLoaders List.reverse [entryAddedUser, entryAddedUser] = .ok l ∧
      l.PreloadedRealms.keys = [5] ∧ l.PreloadedUsers.keys = [3] :=
  ⟨_, rfl, rfl, rfl⟩

/-! ## The claims about `LoadAuditList` -/

/-- C4, evaluated: a list of one entry with a known target ("users", an id
the store holds) and an absent source (empty type, zero id) is not resolved;
the function returns the unknown-association error for the empty kind, in
either order of the range statement. The claim says it succeeds and skips the
absent source. -/
theorem LoadAuditList_absent_source :
    LoadAuditList sampleLoaders id [entryWithoutSource] =
      .error "unknown polymorphic association " ∧
    LoadAuditList sampleLoaders List.reverse [entryWithoutSource] =
      .error "unknown polymorphic association " ∧
    entryWithoutSource.TargetType = "users" ∧
    entryWithoutSource.SourceType = "" ∧ entryWithoutSource.SourceID = 0 ∧
    sampleLoaders.findUsers [entryWithoutSource.TargetID] =
      .ok [{ ID := 3, Email := "carol@example.com", Name := "Carol", Realms := [] }] := by
  refine ⟨rfl, rfl, rfl, rfl, rfl, rfl⟩

/-- C5: for every list with at least one entry whose target type is neither
"realms" nor "users", whatever else the list holds and in whatever order the
kinds are visited, `LoadAuditList` returns an error and no list; when no bulk
query fails, the error is the unknown-association error of an unknown kind. -/
theorem LoadAuditList_unknown_target (db : Loaders)
    (order : GoMap String (List Nat) → List (String × List Nat)) (horder : IsRangeOrder order)
    (entries : List AuditEntry)
    (h : ∃ e ∈ entries, e.TargetType ≠ "realms" ∧ e.TargetType ≠ "users") :
    (∃ msg, LoadAuditList db order entries = .error msg) ∧
      ((∀ ids, ∃ rs, db.findRealms ids = .ok rs) → (∀ ids, ∃ us, db.findUsers ids = .ok us) →
        ∃ k, k ≠ "realms" ∧ k ≠ "users" ∧
          LoadAuditList db order entries = .error ("unknown polymorphic association " ++ k)) := by
  obtain ⟨e, he, h1, h2⟩ := h
  exact LoadAuditList_unknown_kind db order horder entries e.TargetType
    (mem_keys_buildLookups entries e he).1 h1 h2

theorem LoadAuditList_unknown_target_witness :
    IsRangeOrder List.reverse ∧
      (∃ e ∈ [entryAddedUser, entryUnknownTarget, entryAddedUser],
        e.TargetType ≠ "realms" ∧ e.TargetType ≠ "users") ∧
      (∃ msg,
        LoadAuditList sampleLoaders List.reverse
          [entryAddedUser, entryUnknownTarget, entryAddedUser] = .error msg) ∧
      ((∀ ids, ∃ rs, sampleLoaders.findRealms ids = .ok rs) →
        (∀ ids, ∃ us, sampleLoaders.findUsers ids = .ok us) →
        ∃ k, k ≠ "realms" ∧ k ≠ "users" ∧
          LoadAuditList sampleLoaders List.reverse
            [entryAddedUser, entryUnknownTarget, entryAddedUser] =
              .error ("unknown polymorphic association " ++ k)) :=
  ⟨fun m => List.reverse_perm m,
    ⟨entryUnknownTarget, by simp, by decide, by decide⟩,
    LoadAuditList_unknown_target sampleLoaders List.reverse (fun m => List.reverse_perm m)
      [entryAddedUser, entryUnknownTarget, entryAddedUser]
      ⟨entryUnknownTarget, by simp, by decide, by decide⟩⟩

/-! ## `PurgeAuditEntries` -/

theorem wrapInt64_of_isInt64 (x : Int) (h : IsInt64 x) : wrapInt64 x = x := by
  unfold IsInt64 at h
  unfold wrapInt64
  omega

theorem wrapInt64_neg_min : wrapInt64 (-(-(2 ^ 63))) = -(2 ^ 63) := by
  unfold wrapInt64
  omega

/-- The duration added to the clock reading is minus the absolute value of the
duration given. -/
theorem purge_maxAge (d : Int) (h : IsInt64 d) :
    (if d > 0 then wrapInt64 (-1 * d) else d) = -|d| := by
  unfold IsInt64 at h
  by_cases hd : d > 0
  · rw [if_pos hd, wrapInt64_of_isInt64 _ (by unfold IsInt64; omega), abs_of_pos hd]
    omega
  · rw [if_neg hd, abs_of_nonpos (by omega)]
    omega

/-- C6: for every store, clock reading and 64-bit duration of either sign,
when the storage engine executes the delete statement `PurgeAuditEntries`
deletes exactly the entries created strictly before `now - |d|`, keeps every
other entry (one created exactly at the cutoff included) and the user rows,
and returns the number of entries deleted and a nil error; the negated
duration gives the same result, also when the statement fails. -/
theorem PurgeAuditEntries_cutoff (now : Int) (db : Store) (d : Int) (hd : IsInt64 d) :
    PurgeAuditEntries now db none d =
        ({ db with audits := db.audits.filter fun e => decide (now - |d| ≤ e.CreatedAt) },
          (db.audits.filter fun e => decide (e.CreatedAt < now - |d|)).length,
          none) ∧
      (∀ e, e ∈ (PurgeAuditEntries now db none d).1.audits ↔
        e ∈ db.audits ∧ ¬ e.CreatedAt < now - |d|) ∧
      (PurgeAuditEntries now db none d).2.1 + (PurgeAuditEntries now db none d).1.audits.length =
        db.audits.length ∧
      (∀ failure, PurgeAuditEntries now db failure (wrapInt64 (-d)) =
        PurgeAuditEntries now db failure d) := by
  have hcut : ∀ x : Int, IsInt64 x →
      now + (if x > 0 then wrapInt64 (-1 * x) else x) = now - |x| := by
    intro x hx
    rw [purge_maxAge x hx]
    omega
  have hfilter : (db.audits.filter fun e => !decide (e.CreatedAt < now - |d|)) =
      db.audits.filter fun e => decide (now - |d| ≤ e.CreatedAt) := by
    apply List.filter_congr
    intro e _
    by_cases hlt : e.CreatedAt < now - |d| <;> simp [hlt] <;> omega
  have hmain : PurgeAuditEntries now db none d =
      ({ db with audits := db.audits.filter fun e => decide (now - |d| ≤ e.CreatedAt) },
        (db.audits.filter fun e => decide (e.CreatedAt < now - |d|)).length,
        none) := by
    simp only [PurgeAuditEntries, deleteCreatedBefore, hcut d hd, hfilter]
  refine ⟨hmain, ?_, ?_, ?_⟩
  · intro e
    rw [hmain]
    simp [List.mem_filter]
  · rw [hmain]
    simp only
    have := List.length_eq_length_filter_add (l := db.audits)
      (fun e => decide (e.CreatedAt < now - |d|))
    rw [hfilter.symm]
    simp only [Bool.not_eq_true', decide_eq_false_iff_not] at this ⊢
    omega
  · intro failure
    have hneg : IsInt64 (wrapInt64 (-d)) ∧ |wrapInt64 (-d)| = |d| := by
      unfold IsInt64 at hd
      by_cases hmin : d = -(2 ^ 63)
      · subst hmin
        rw [wrapInt64_neg_min]
        exact ⟨by unfold IsInt64; omega, rfl⟩
      · rw [wrapInt64_of_isInt64 _ (by unfold IsInt64; omega)]
        exact ⟨by unfold IsInt64; omega, abs_neg d⟩
    simp only [PurgeAuditEntries, hcut d hd, hcut _ hneg.1, hneg.2]

theorem PurgeAuditEntries_cutoff_witness :
    IsInt64 (-30) ∧
      PurgeAuditEntries 160
          { users := [], audits := [entryWithoutSource, entryAddedUser, entryUnknownTarget] }
          none (-30) =
        ({ users := [], audits := [entryAddedUser, entryUnknownTarget] }, 1, none) :=
  ⟨by unfold IsInt64; omega,
    (PurgeAuditEntries_cutoff 160
      { users := [], audits := [entryWithoutSource, entryAddedUser, entryUnknownTarget] }
      (-30) (by unfold IsInt64; omega)).1.trans (by decide)⟩

end Verification
